import Mathlib

set_option autoImplicit false

/-!
Shallow embedding of the Process/Processes/CompiledProcesses subsystem of
qsdsan (src/qsdsan/_process.py) and of the PM2 parameter-setting contract
(src/qsdsan/processes/_pm2.py), with theorems settling the frozen claims.

Modelling conventions:
  * machine floats are modelled as rationals (ℚ);
  * sympy rate expressions enter the claims only through negation and
    multiplication by coefficients, so they are modelled by their value in ℚ;
  * a Python call that can raise is a function into `Except PyError _`, or,
    when mutations made before the raise must stay visible, into
    `State × Option PyError` (the state after the call plus the raised error);
  * Python dicts are insertion-ordered association lists; reachable instances
    have unique keys, and lookups take the first match.
-/

namespace QSDsan

/-- Python exception kinds raised by the embedded code.  `undefinedProcess` is
the `UndefinedProcess` class of src/qsdsan/_process.py:24-27 (an
`AttributeError` subclass carrying the offending ID), kept as its own
constructor so it is distinguishable from a generic `keyError`.
`runtimeError` carries the message together with the structured
(material, residual) payload interpolated into it, when any. -/
inductive PyError where
  | attributeError (name : String)
  | typeError (msg : String)
  | valueError (msg : String)
  | keyError (msg : String)
  | runtimeError (msg : String) (data : List (String × ℚ))
  | undefinedProcess (ID : String)
  deriving DecidableEq

/-- First-match association-list lookup: Python `dict` access on the unique-key
dicts of this development. -/
def alookup {κ α : Type} [DecidableEq κ] : List (κ × α) → κ → Option α
  | [], _ => none
  | kv :: rest, k => if kv.1 = k then some kv.2 else alookup rest k

/-- Python `dict` item assignment: an existing key keeps its position and gets
the new value, a new key is appended. -/
def dictSet {κ α : Type} [DecidableEq κ] (d : List (κ × α)) (k : κ) (v : α) :
    List (κ × α) :=
  if d.any (fun kv => kv.1 = k) then
    d.map (fun kv => if kv.1 = k then (k, v) else kv)
  else d ++ [(k, v)]

/-- Python `dict.update`: merge the second dict into the first, later entries
winning, insertion positions of existing keys preserved. -/
def dictUpdate {κ α : Type} [DecidableEq κ] (d e : List (κ × α)) :
    List (κ × α) :=
  e.foldl (fun acc kv => dictSet acc kv.1 kv.2) d

/-- Keys of a `dict.update` stream deduplicated in first-seen order (the key
order a Python dict built by repeated `update` ends up with). -/
def dedupeFirstAux (seen : List String) : List String → List String
  | [] => []
  | x :: xs =>
    if x ∈ seen then dedupeFirstAux seen xs
    else x :: dedupeFirstAux (x :: seen) xs

def dedupeFirst (l : List String) : List String := dedupeFirstAux [] l

/-- Dot product of two coefficient vectors (`ic @ v` on aligned rows). -/
def dotQ (a b : List ℚ) : ℚ := (List.zipWith (fun x y => x * y) a b).sum

/-- `Matrix(M).T` for a rectangular list-of-rows matrix: every row of the
matrices built by `_compile` has length `(M.headD []).length`. -/
def transposeMat (M : List (List ℚ)) : List (List ℚ) :=
  (List.range (M.headD []).length).map (fun j => M.map (fun row => row.getD j 0))

/-- A member of the external component registry: unique ID plus the named
conversion factors (`i_COD`, `i_C`, ... accessed as `i_<quantity>`). -/
structure Component where
  ID : String
  factors : List (String × ℚ)
  deriving DecidableEq

/-- `getattr(cmp, 'i_' + q)`: the conversion factor of one component for one
conserved quantity. -/
def Component.i (c : Component) (q : String) : ℚ := (alookup c.factors q).getD 0

/-- The `_stoichiometry` attribute of a `Process`: either a numpy float array
(every coefficient resolved numerically) or a Python list of sympy
expressions, the latter modelled by the values of its entries.  The
constructor records which Python type the attribute has, which is what
`isinstance(self._stoichiometry, np.ndarray)` branches on. -/
inductive StoichVec where
  | arr (v : List ℚ)
  | lst (v : List ℚ)
  deriving DecidableEq

def StoichVec.coeffs : StoichVec → List ℚ
  | .arr v => v
  | .lst v => v

/-- The `isinstance(·, np.ndarray)` test. -/
def StoichVec.isNumeric : StoichVec → Bool
  | .arr _ => true
  | .lst _ => false

/-- Elementwise arithmetic on the stored vector, preserving its Python type
(numpy broadcasting on the array, a list comprehension on the list). -/
def StoichVec.mapCoeffs (f : ℚ → ℚ) : StoichVec → StoichVec
  | .arr v => .arr (v.map f)
  | .lst v => .lst (v.map f)

/-- A `Process` instance, with the attributes `Process.__init__`
(src/qsdsan/_process.py:33-44) writes: `_ID`, `_components` (the registry the
reaction was parsed against), `_ref_component`, `_conserved_for`,
`_parameters` (free-parameter names), `_stoichiometry` and `_rate_equation`. -/
structure ProcessObj where
  _ID : String
  _components : List Component
  _ref_component : String
  _conserved_for : List String
  _parameters : List String
  _stoichiometry : StoichVec
  _rate_equation : ℚ
  deriving DecidableEq

/-- A value stored under an attribute name of a `Process` or compiled
collection instance. -/
inductive PyVal where
  | str (s : String)
  | strList (l : List String)
  | comps (l : List Component)
  | stoich (v : StoichVec)
  | expr (e : ℚ)
  | proc (p : ProcessObj)
  | procTuple (l : List ProcessObj)
  | natVal (n : Nat)
  | indexDict (d : List (String × Nat))
  | paramTable (l : List String)
  | matrix (m : List (List ℚ))
  | exprTuple (l : List ℚ)
  deriving DecidableEq

/-- Attribute lookup on a `Process` instance: exactly the attributes written by
`Process.__init__` and its setters exist, any other name raises
`AttributeError`.  In particular the name `_conservation_for` read by
`get_conversion_factors` is never among them: the constructor stores the
conserved quantities under `_conserved_for`. -/
def ProcessObj.getattr (p : ProcessObj) (name : String) : Except PyError PyVal :=
  if name = "_ID" then .ok (.str p._ID)
  else if name = "_components" then .ok (.comps p._components)
  else if name = "_ref_component" then .ok (.str p._ref_component)
  else if name = "_conserved_for" then .ok (.strList p._conserved_for)
  else if name = "_parameters" then .ok (.paramTable p._parameters)
  else if name = "_stoichiometry" then .ok (.stoich p._stoichiometry)
  else if name = "_rate_equation" then .ok (.expr p._rate_equation)
  else .error (.attributeError name)

/-- `Process.get_conversion_factors` (src/qsdsan/_process.py:46-58): stacks one
conversion-factor row per conserved quantity (`None` when the conserved list
is falsy).  The method reads the instance attribute `self._conservation_for`,
so the attribute access is taken through `getattr`. -/
def get_conversion_factors (p : ProcessObj) :
    Except PyError (Option (List (List ℚ))) :=
  match p.getattr ("_conservation_for") with
  | .error e => .error e
  | .ok (.strList mats) =>
    if mats.isEmpty then .ok none
    else .ok (some (mats.map (fun q => p._components.map (fun c => c.i q))))
  | .ok _ => .error (.typeError ("unexpected attribute type"))

/-- `Process.check_conservation` (src/qsdsan/_process.py:60-78): on a numeric
(numpy) stoichiometry, compute `ic @ v` and require every entry within `tol`
of zero (`np.isclose(x, 0, atol=tol)` is `|x| ≤ tol` here), raising a
`RuntimeError` listing each unconserved material with its signed residual;
on a non-numeric stoichiometry, raise the fixed `RuntimeError`. -/
def check_conservation (p : ProcessObj) (tol : ℚ) : Except PyError Unit :=
  if p._stoichiometry.isNumeric then
    match get_conversion_factors p with
    | .error e => .error e
    | .ok none => .error (.typeError ("unsupported operand type for matmul"))
    | .ok (some ic) =>
      let v := p._stoichiometry.coeffs
      let ic_dot_v := ic.map (fun row => dotQ row v)
      let pairs := List.zip p._conserved_for ic_dot_v
      let unconserved := pairs.filter (fun mv => ¬ (|mv.2| ≤ tol))
      if unconserved.isEmpty then .ok ()
      else .error (.runtimeError
        ("The following materials are unconserved by the stoichiometric coefficients")
        unconserved)
  else
    .error (.runtimeError
      ("Can only check conservations with numerical stoichiometric coefficients")
      [])

/-- Position of an ID in a registry (`cmps._index[ID]` of the external compiled
registry, whose IDs are unique; `List.indexOf` returns the length on a miss,
unreachable where used). -/
def indexOfID (cmps : List Component) (ID : String) : Nat :=
  (cmps.map Component.ID).indexOf ID

/-- Coefficient at a registry position (positions produced by `indexOfID` are
in range wherever this is used). -/
def coeffAt (v : StoichVec) (idx : Nat) : ℚ := v.coeffs.getD idx 0

/-- `Process.ref_component` setter (src/qsdsan/_process.py:95-100) composed of
`_normalize_stoichiometry` (:134-140) and `_normalize_rate_eq` (:142-144):
when the new reference is truthy, store it, divide the whole stoichiometry by
the absolute value of its coefficient, then multiply the rate equation by the
coefficient read back from the already-updated vector. -/
def Process.setRefComponent (p : ProcessObj) (ref_cmp : String) : ProcessObj :=
  if ref_cmp = "" then p
  else
    let idx := indexOfID p._components ref_cmp
    let factor := |coeffAt p._stoichiometry idx|
    let st2 := p._stoichiometry.mapCoeffs (fun v => v / factor)
    let factor2 := coeffAt st2 idx
    { p with _ref_component := ref_cmp,
             _stoichiometry := st2,
             _rate_equation := p._rate_equation * factor2 }

/-- `Process.stoichiometry` property (src/qsdsan/_process.py:121-124): the dense
vector zipped against the registry IDs with zero entries elided. -/
def ProcessObj.stoichView (p : ProcessObj) : List (String × ℚ) :=
  ((p._components.map Component.ID).zip p._stoichiometry.coeffs).filter
    (fun kv => kv.2 ≠ 0)

/-- The `__dict__` of a mutable `Processes` instance: insertion-ordered mapping
from process ID to `Process` (each process stored as an attribute keyed by its
ID). -/
abbrev ProcsDict := List (String × QSDsan.ProcessObj)

/-- `Processes.__new__` (src/qsdsan/_process.py:151-157): one
`object.__setattr__` per member process, keyed by its ID. -/
def Processes.new (processes : List ProcessObj) : ProcsDict :=
  processes.foldl (fun d p => dictSet d p._ID p) []

/-- `Processes.append` (src/qsdsan/_process.py:193-201): rejects an already
present ID with `ValueError`; the `isinstance(process, Process)` guard is
enforced by the typing of the embedding. -/
def Processes.append (d : ProcsDict) (process : ProcessObj) :
    Except PyError ProcsDict :=
  if d.any (fun kv => kv.1 = process._ID) then
    .error (.valueError (process._ID ++ " already defined in processes"))
  else .ok (d ++ [(process._ID, process)])

/-- The `else` arm of `Processes.extend`: append each element in turn; on the
first failure the exception propagates, and the appends already made stay
visible (the returned dict is the object state after the call). -/
def Processes.extendLoop (d : ProcsDict) :
    List ProcessObj → ProcsDict × Option PyError
  | [] => (d, none)
  | p :: rest =>
    match Processes.append d p with
    | .ok d2 => Processes.extendLoop d2 rest
    | .error e => (d, some e)

/-- `Processes.extend` (src/qsdsan/_process.py:203-208): a `Processes` argument
is merged with `self.__dict__.update(...)` (silent replacement on duplicate
IDs), any other iterable goes through `append` element by element. -/
def Processes.extend (d : ProcsDict) (arg : ProcsDict ⊕ List ProcessObj) :
    ProcsDict × Option PyError :=
  match arg with
  | .inl other => (dictUpdate d other, none)
  | .inr procs => Processes.extendLoop d procs

/-- `Processes.subgroup` (src/qsdsan/_process.py:210-220): evaluates the
comprehension `[getattr(self, i) for i in IDs]` (instance `__dict__` lookup;
a miss on a non-method name raises `AttributeError`), then calls
`Process(...)` — the single-reaction class, not `Processes` — with that list
as the lone positional argument; `Process.__init__` requires `ID`, `reaction`
and `ref_component`, so the call raises `TypeError` whenever the comprehension
succeeds. -/
def Processes.subgroup (d : ProcsDict) (IDs : List String) :
    Except PyError ProcsDict := do
  let _procs ← IDs.mapM (fun i =>
    match alookup d i with
    | some p => Except.ok p
    | none => Except.error (PyError.attributeError i))
  Except.error (PyError.typeError
    ("Process.__init__ missing required positional arguments: reaction, ref_component"))

/-- `Processes.__getitem__` on an iterable key (src/qsdsan/_process.py:168-185):
the comprehension over the instance `__dict__`, with a `KeyError` naming the
whole key on any miss. -/
def Processes.getitemList (d : ProcsDict) (key : List String) :
    Except PyError (List ProcessObj) :=
  match key.mapM (alookup d) with
  | some procs => .ok procs
  | none => .error (.keyError ("undefined process " ++ String.intercalate ", " key))

/-- Modelled from the spec: the external `Components` registry constructor plus
its `compile` step (`qsdsan._components`, code of this repository not under
src/) — construction of a merged registry from a list of components,
de-duplicated by ID in first-seen order (spec section 6 and section 4.3
step 1). -/
def Components.mergeAux (seen : List String) : List Component → List Component
  | [] => []
  | c :: cs =>
    if c.ID ∈ seen then Components.mergeAux seen cs
    else c :: Components.mergeAux (c.ID :: seen) cs

def Components.merge (l : List Component) : List Component :=
  Components.mergeAux [] l

/-- One row of the stoichiometry matrix built by `CompiledProcesses._compile`
(src/qsdsan/_process.py:298-304): start from `[0]*cmps.size` and assign each
entry of the sparse `stoichiometry` view at its merged-registry position. -/
def compileRow (cmps : List Component) (p : ProcessObj) : List ℚ :=
  p.stoichView.foldl (fun stch kv => stch.set (indexOfID cmps kv.1) kv.2)
    (List.replicate cmps.length 0)

/-- The derived state `CompiledProcesses._compile` stores on the instance. -/
structure CompiledData where
  tuple : List ProcessObj
  size : Nat
  IDs : List String
  index : List (String × Nat)
  components : List Component
  parameters : List String
  stoichiometry : List (List ℚ)
  rate_equations : List ℚ
  production_rates : List ℚ
  deriving DecidableEq

/-- `CompiledProcesses._compile` (src/qsdsan/_process.py:279-309): member tuple,
IDs, `_index = dict(zip(IDs, range(size)))`, the merged component registry
(`Components.merge`, modelled from the spec), the row-stacked stoichiometry
matrix, the merged free-parameter table (`params.update` per process, keys in
first-seen order), the rate-equation tuple, and
`production_rates = Matrix(M_stch).T * Matrix(rate_eqs)`. -/
def CompiledProcesses.mk (processes : List ProcessObj) : CompiledData :=
  let IDs := processes.map (fun p => p._ID)
  let size := IDs.length
  let cmps := Components.merge (processes.flatMap (fun p => p._components))
  let M_stch := processes.map (compileRow cmps)
  let rate_eqs := processes.map (fun p => p._rate_equation)
  { tuple := processes
    size := size
    IDs := IDs
    index := IDs.zip (List.range size)
    components := cmps
    parameters := dedupeFirst (processes.flatMap (fun p => p._parameters))
    stoichiometry := M_stch
    rate_equations := rate_eqs
    production_rates := (transposeMat M_stch).map (fun col => dotQ col rate_eqs) }

/-- `CompiledProcesses.index` (src/qsdsan/_process.py:334-338): `_index` lookup,
re-raising a miss as `UndefinedProcess(ID)`. -/
def CompiledProcesses.index (cp : CompiledData) (ID : String) :
    Except PyError Nat :=
  match alookup cp.index ID with
  | some i => .ok i
  | none => .error (.undefinedProcess ID)

/-- `CompiledProcesses.indices` (src/qsdsan/_process.py:340-346): the
comprehension stops at the first missing ID and the handler re-raises
`UndefinedProcess(key_error.args[0])`, i.e. the error carries that ID. -/
def CompiledProcesses.indices (cp : CompiledData) :
    List String → Except PyError (List Nat)
  | [] => .ok []
  | i :: rest =>
    match alookup cp.index i with
    | some n => (CompiledProcesses.indices cp rest).map (fun l => n :: l)
    | none => .error (.undefinedProcess i)

/-- `CompiledProcesses.subgroup` (src/qsdsan/_process.py:327-332): fetch the
member processes via `self[IDs]`, build a fresh mutable `Processes`, then call
`new.compile()`; the mutable `Processes` class of this repository defines
`mycompile` but no `compile`, so that attribute lookup raises
`AttributeError`. -/
def CompiledProcesses.subgroup (cp : CompiledData) (IDs : List String) :
    Except PyError ProcsDict := do
  let procs ← Processes.getitemList (cp.tuple.map (fun p => (p._ID, p))) IDs
  let _new := Processes.new procs
  Except.error (PyError.attributeError ("compile"))

/-- Modelled from the spec: the `read_only` decorator of `thermosteam.utils`
(external collaborator, not under src/) wraps `append`, `extend` and
`__setitem__` of `CompiledProcesses` so each raises an explicit read-only
error without touching the instance (spec section 4.3, mutation guard).  The
result pairs the object state after the call with the raised error. -/
def CompiledProcesses.append (cp : CompiledData) (_process : ProcessObj) :
    CompiledData × Option PyError :=
  (cp, some (.typeError ("CompiledProcesses object is read-only")))

/-- Modelled from the spec: read-only guard on `extend` (see
`CompiledProcesses.append`). -/
def CompiledProcesses.extend (cp : CompiledData)
    (_arg : ProcsDict ⊕ List ProcessObj) : CompiledData × Option PyError :=
  (cp, some (.typeError ("CompiledProcesses object is read-only")))

/-- Modelled from the spec: read-only guard on `__setitem__` (see
`CompiledProcesses.append`). -/
def CompiledProcesses.setitem (cp : CompiledData) (_ID : String)
    (_process : ProcessObj) : CompiledData × Option PyError :=
  (cp, some (.typeError ("CompiledProcesses object is read-only")))

/-- Identity tag of a Python object (`id(obj)`). -/
abbrev ObjId := Nat

/-- The process-wide class attribute `CompiledProcesses._cache` together with an
allocation counter for fresh object identities.  Keys are the exact ordered
tuples of member `Process` objects; `Process` defines neither `__eq__` nor
`__hash__`, so CPython tuple lookup compares the members by identity, hence a
key is a list of identity tags. -/
structure CacheState where
  cache : List (List ObjId × ObjId)
  next : ObjId
  deriving DecidableEq

/-- `CompiledProcesses.__new__` (src/qsdsan/_process.py:258-270): look the exact
member tuple up in the class-wide cache; on a hit return the cached instance
unchanged, otherwise allocate a fresh instance, compile it, and insert it
under that tuple.  Returns the updated cache state and the identity of the
returned object. -/
def CompiledProcesses.new (s : CacheState) (processes : List ObjId) :
    CacheState × ObjId :=
  match alookup s.cache processes with
  | some obj => (s, obj)
  | none => ({ cache := s.cache ++ [(processes, s.next)], next := s.next + 1 }, s.next)

/-- Well-formedness of the cache state maintained by every real execution: each
cached object was allocated by the counter (its tag is below `next`) and
distinct constructions produced distinct objects (cached tags are pairwise
distinct). -/
def CacheState.WF (s : CacheState) : Prop :=
  (∀ kv ∈ s.cache, kv.2 < s.next) ∧ (s.cache.map Prod.snd).Nodup

/-- The `__dict__` of a `CompiledProcesses` instance after `__new__` plus
`_compile` (src/qsdsan/_process.py:258-309): one attribute per member process
in order, then the entries `_compile` writes, in the order it writes them. -/
def compiledDict (processes : List ProcessObj) : List (String × PyVal) :=
  let cp := CompiledProcesses.mk processes
  processes.map (fun p => (p._ID, PyVal.proc p))
    ++ [("tuple", .procTuple cp.tuple), ("size", .natVal cp.size),
        ("IDs", .strList cp.IDs), ("_index", .indexDict cp.index),
        ("_components", .comps cp.components),
        ("_parameters", .paramTable cp.parameters),
        ("_stoichiometry", .matrix cp.stoichiometry),
        ("_rate_equations", .exprTuple cp.rate_equations),
        ("_production_rates", .exprTuple cp.production_rates)]

/-- The attribute access `i.ID` on an arbitrary iterated value: only `Process`
objects have an `ID` property, anything else raises `AttributeError`. -/
def PyVal.getID : PyVal → Except PyError String
  | .proc p => .ok p._ID
  | _ => .error (.attributeError ("ID"))

/-- `Processes.__new__` applied to an iterable of arbitrary values, as in
`Processes(self)` with `self` compiled: `Processes.__iter__`
(src/qsdsan/_process.py:245-246) yields every `__dict__` value, and `__new__`
sets one attribute per element keyed by `i.ID`. -/
def Processes.newFromIterAux (acc : List (String × PyVal)) :
    List PyVal → Except PyError (List (String × PyVal))
  | [] => .ok acc
  | v :: rest =>
    match v.getID with
    | .ok i => Processes.newFromIterAux (dictSet acc i v) rest
    | .error e => .error e

/-- The `Process` members held in a dict of iterated values (used only on the
unreachable success path of `CompiledProcesses.copy`). -/
def procsOf (d : List (String × PyVal)) : List ProcessObj :=
  d.filterMap (fun kv => match kv.2 with | PyVal.proc p => some p | _ => none)

/-- `CompiledProcesses.copy` (src/qsdsan/_process.py:356-360): `Processes(self)`
followed by `mycompile()` (:222-225, a fresh `_compile` bypassing the cache).
`Processes.__new__` iterates the compiled instance, whose `__dict__` also
holds the `_compile` artifacts. -/
def CompiledProcesses.copy (processes : List ProcessObj) :
    Except PyError CompiledData :=
  match Processes.newFromIterAux [] ((compiledDict processes).map Prod.snd) with
  | .error e => .error e
  | .ok d => .ok (CompiledProcesses.mk (procsOf d))

/-- The stoichiometric parameter names `PM2._stoichio_params`
(src/qsdsan/processes/_pm2.py:694-699). -/
def PM2.stoichioParams : List String :=
  ["Y_CH_ND_HET_ACE", "Y_LI_ND_HET_ACE", "Y_CH_ND_HET_GLU", "Y_LI_ND_HET_GLU",
   "Y_CH_PHO", "Y_LI_PHO", "Y_X_ALG_PHO",
   "Y_CH_NR_HET_ACE", "Y_LI_NR_HET_ACE", "Y_X_ALG_HET_ACE",
   "Y_CH_NR_HET_GLU", "Y_LI_NR_HET_GLU", "Y_X_ALG_HET_GLU"]

/-- The mutable state of a compiled PM2 model that `set_parameters` touches:
`self._parameters` (the stoichiometric parameter table),
`self.rate_function._params` (the bound kinetic parameter table), whether
`self._stoichio_lambdified` is currently not `None`, and the compiled
stoichiometry table read by `Th_Q_N_min` / `Th_Q_P_min` (the DataFrame view
of the repository is not under src/ and is modelled as an association table
indexed by process ID and component ID). -/
structure PM2State where
  params : List (String × ℚ)
  kineticParams : List (String × ℚ)
  stoichioLambdified : Bool
  stoichTable : List ((String × String) × ℚ)
  deriving DecidableEq

/-- `PM2.Th_Q_N_min` (src/qsdsan/processes/_pm2.py:787-789):
`abs(stoichiometry.loc['growth_pho', 'X_N_ALG']) * 1.001`. -/
def PM2.Th_Q_N_min (st : PM2State) : ℚ :=
  |(alookup st.stoichTable ("growth_pho", "X_N_ALG")).getD 0| * (1001 / 1000)

/-- `PM2.Th_Q_P_min` (src/qsdsan/processes/_pm2.py:791-793). -/
def PM2.Th_Q_P_min (st : PM2State) : ℚ :=
  |(alookup st.stoichTable ("growth_pho", "X_P_ALG")).getD 0| * (1001 / 1000)

/-- The tail of `PM2.set_parameters`: `self.rate_function.set_param(**parameters)`
(src/qsdsan/processes/_pm2.py:785).  Modelled from the spec: the rate-function
binding holds a mutable parameter table settable via a `set_parameters`-style
operation (spec section 4.4); `set_param` updates that table with the given
entries. -/
def PM2.storeKinetic (st1 : PM2State) (parameters : List (String × ℚ)) :
    PM2State × Option PyError :=
  ({ st1 with kineticParams := dictUpdate st1.kineticParams parameters }, none)

/-- The `Q_P_min` validation step of `PM2.set_parameters`
(src/qsdsan/processes/_pm2.py:781-784). -/
def PM2.checkQP (st1 : PM2State) (parameters : List (String × ℚ)) :
    PM2State × Option PyError :=
  match alookup parameters "Q_P_min" with
  | some v =>
    if v < PM2.Th_Q_P_min st1 then
      (st1, some (.valueError
        ("Value for Q_P_min must not be less than the theoretical minimum")))
    else PM2.storeKinetic st1 parameters
  | none => PM2.storeKinetic st1 parameters

/-- `PM2.set_parameters` (src/qsdsan/processes/_pm2.py:771-785): first store the
stoichiometric subset into `self._parameters` and clear the cached lambdified
stoichiometry, then validate `Q_N_min` and `Q_P_min` against their theoretical
minima, and only then pass everything to `rate_function.set_param`.  Returns
the object state after the call plus the raised error, if any — the mutations
made before a raise persist, as in Python. -/
def PM2.set_parameters (st : PM2State) (parameters : List (String × ℚ)) :
    PM2State × Option PyError :=
  let stoichio_only := parameters.filter (fun kv => PM2.stoichioParams.contains kv.1)
  let st1 : PM2State :=
    { st with params := dictUpdate st.params stoichio_only,
              stoichioLambdified := false }
  match alookup parameters "Q_N_min" with
  | some v =>
    if v < PM2.Th_Q_N_min st1 then
      (st1, some (.valueError
        ("Value for Q_N_min must not be less than the theoretical minimum")))
    else PM2.checkQP st1 parameters
  | none => PM2.checkQP st1 parameters

/-! Concrete instances used by the example-scenario conjuncts, the
counterexamples and the witnesses. -/

def cmpA : Component := { ID := "A", factors := [("COD", 1)] }

def cmpB : Component := { ID := "B", factors := [("COD", 1)] }

def cmpC : Component := { ID := "C", factors := [("COD", 0)] }

/-- Scenario process `p1`, parsed against the registry `{A, B}`. -/
def p1ex : ProcessObj :=
  { _ID := "p1", _components := [cmpA, cmpB], _ref_component := "B",
    _conserved_for := ["COD"], _parameters := ["mu"],
    _stoichiometry := .arr [-1, 1], _rate_equation := 3 }

/-- Scenario process `p2`, parsed against the registry `{B, C}`. -/
def p2ex : ProcessObj :=
  { _ID := "p2", _components := [cmpB, cmpC], _ref_component := "C",
    _conserved_for := ["COD"], _parameters := ["k"],
    _stoichiometry := .arr [-1, 2], _rate_equation := 7 }

/-! Shared helper lemmas. -/

lemma alookup_append {κ α : Type} [DecidableEq κ] (d e : List (κ × α)) (k : κ) :
    alookup (d ++ e) k
      = match alookup d k with
        | some v => some v
        | none => alookup e k := by
  induction d with
  | nil => simp [alookup]
  | cons kv rest ih =>
    by_cases h : kv.1 = k <;> simp [alookup, h, ih]

lemma mem_of_alookup {κ α : Type} [DecidableEq κ] {d : List (κ × α)} {k : κ}
    {v : α} (h : alookup d k = some v) : (k, v) ∈ d := by
  induction d with
  | nil => simp [alookup] at h
  | cons kv rest ih =>
    by_cases hh : kv.1 = k
    · rw [alookup, if_pos hh] at h
      cases h
      rw [← hh]
      exact List.mem_cons_self _ _
    · rw [alookup, if_neg hh] at h
      exact List.mem_cons_of_mem _ (ih h)

lemma alookup_isSome_iff_any {κ α : Type} [DecidableEq κ] (d : List (κ × α))
    (k : κ) : (alookup d k).isSome = d.any (fun kv => kv.1 = k) := by
  induction d with
  | nil => simp [alookup]
  | cons kv rest ih =>
    by_cases h : kv.1 = k <;> simp [alookup, h, ih]

lemma alookup_none_of_not_any {κ α : Type} [DecidableEq κ] {d : List (κ × α)}
    {k : κ} (h : ¬ d.any (fun kv => kv.1 = k) = true) : alookup d k = none := by
  cases hcase : alookup d k with
  | none => rfl
  | some w =>
    exfalso
    apply h
    rw [← alookup_isSome_iff_any, hcase]
    rfl

lemma alookup_map_set_self {κ α : Type} [DecidableEq κ] (d : List (κ × α))
    (k : κ) (v : α) (hany : d.any (fun kv => kv.1 = k) = true) :
    alookup (d.map (fun kv => if kv.1 = k then (k, v) else kv)) k = some v := by
  induction d with
  | nil => simp at hany
  | cons kv rest ih =>
    by_cases h : kv.1 = k
    · simp [alookup, h]
    · rw [List.any_cons, decide_eq_false h, Bool.false_or] at hany
      simp [alookup, h, ih hany]

lemma alookup_map_set_ne {κ α : Type} [DecidableEq κ] (d : List (κ × α))
    (k k2 : κ) (v : α) (hne : k2 ≠ k) :
    alookup (d.map (fun kv => if kv.1 = k then (k, v) else kv)) k2
      = alookup d k2 := by
  induction d with
  | nil => rfl
  | cons kv rest ih =>
    by_cases h : kv.1 = k
    · have hk2 : ¬ k = k2 := fun hc => hne hc.symm
      have hkv2 : ¬ kv.1 = k2 := by rw [h]; exact hk2
      simp only [List.map_cons, if_pos h, alookup, if_neg hk2, if_neg hkv2]
      exact ih
    · simp only [List.map_cons, if_neg h, alookup]
      by_cases h2 : kv.1 = k2
      · rw [if_pos h2, if_pos h2]
      · rw [if_neg h2, if_neg h2]
        exact ih

lemma alookup_dictSet_self {κ α : Type} [DecidableEq κ] (d : List (κ × α))
    (k : κ) (v : α) : alookup (dictSet d k v) k = some v := by
  unfold dictSet
  by_cases hany : d.any (fun kv => kv.1 = k) = true
  · rw [if_pos hany]
    exact alookup_map_set_self d k v hany
  · rw [if_neg hany, alookup_append, alookup_none_of_not_any hany]
    simp [alookup]

lemma alookup_dictSet_ne {κ α : Type} [DecidableEq κ] (d : List (κ × α))
    (k k2 : κ) (v : α) (hne : k2 ≠ k) :
    alookup (dictSet d k v) k2 = alookup d k2 := by
  unfold dictSet
  by_cases hany : d.any (fun kv => kv.1 = k) = true
  · rw [if_pos hany]
    exact alookup_map_set_ne d k k2 v hne
  · rw [if_neg hany, alookup_append]
    cases hcase : alookup d k2 with
    | none =>
      have hk2 : ¬ k = k2 := fun hc => hne hc.symm
      simp [alookup, hk2]
    | some w => rfl

lemma alookup_dictUpdate_not_mem {κ α : Type} [DecidableEq κ]
    (e : List (κ × α)) :
    ∀ (d : List (κ × α)) (k : κ), k ∉ e.map Prod.fst →
      alookup (dictUpdate d e) k = alookup d k := by
  induction e with
  | nil => intro d k _; rfl
  | cons kv rest ih =>
    intro d k h
    simp only [List.map_cons, List.mem_cons] at h
    push_neg at h
    unfold dictUpdate
    rw [List.foldl_cons]
    have hrw := ih (dictSet d kv.1 kv.2) k h.2
    unfold dictUpdate at hrw
    rw [hrw, alookup_dictSet_ne d kv.1 k kv.2 h.1]

lemma alookup_dictUpdate_of_mem {κ α : Type} [DecidableEq κ]
    (e : List (κ × α)) :
    ∀ (d : List (κ × α)) (k : κ) (v : α), (e.map Prod.fst).Nodup →
      alookup e k = some v → alookup (dictUpdate d e) k = some v := by
  induction e with
  | nil => intro d k v _ h; simp [alookup] at h
  | cons kv rest ih =>
    intro d k v hnodup h
    simp only [List.map_cons, List.nodup_cons] at hnodup
    unfold dictUpdate
    rw [List.foldl_cons]
    by_cases hh : kv.1 = k
    · rw [alookup, if_pos hh] at h
      cases h
      have hout : k ∉ rest.map Prod.fst := hh ▸ hnodup.1
      have hrw := alookup_dictUpdate_not_mem rest (dictSet d kv.1 kv.2) k hout
      unfold dictUpdate at hrw
      rw [hrw, hh, alookup_dictSet_self]
    · rw [alookup, if_neg hh] at h
      have hrec := ih (dictSet d kv.1 kv.2) k v hnodup.2 h
      unfold dictUpdate at hrec
      exact hrec

lemma alookup_zip_range' {l : List String} {o : Nat} {k : String} :
    alookup (l.zip (List.range' o l.length)) k
      = if k ∈ l then some (l.indexOf k + o) else none := by
  induction l generalizing o with
  | nil => simp [alookup]
  | cons a rest ih =>
    rw [List.length_cons, List.range'_succ, List.zip_cons_cons]
    by_cases h : a = k
    · simp [alookup, h, List.indexOf_cons_self]
    · have hne : (k = a) → False := fun hc => h hc.symm
      rw [alookup, if_neg h, ih]
      by_cases hmem : k ∈ rest
      · rw [if_pos hmem, if_pos (List.mem_cons_of_mem a hmem)]
        rw [List.indexOf_cons_ne rest (fun hc => h hc)]
        congr 1
        omega
      · rw [if_neg hmem]
        rw [if_neg (fun hc => (List.mem_cons.1 hc).elim hne hmem)]

lemma alookup_zip_range {l : List String} {k : String} :
    alookup (l.zip (List.range l.length)) k
      = if k ∈ l then some (l.indexOf k) else none := by
  rw [List.range_eq_range', alookup_zip_range']
  simp

lemma length_foldl_set (l : List (String × ℚ)) (F : String → Nat) :
    ∀ init : List ℚ,
      (l.foldl (fun s kv => s.set (F kv.1) kv.2) init).length = init.length := by
  induction l with
  | nil => intro init; rfl
  | cons a t ih =>
    intro init
    rw [List.foldl_cons, ih]
    exact List.length_set init (F a.1) a.2

lemma compileRow_length (cmps : List Component) (p : ProcessObj) :
    (compileRow cmps p).length = cmps.length := by
  unfold compileRow
  rw [length_foldl_set]
  exact List.length_replicate cmps.length 0

/-- Claim C1: compiling `p1` (components `{A, B}`) together with `p2`
(components `{B, C}`) produces the merged registry `A, B, C` in first-seen
order and the 2 by 3 stoichiometry matrix with zero entries at `(p1, C)` and
`(p2, A)`; in general, for a compiled collection of `P` processes over a
merged registry of `C` components, the stoichiometry matrix has `P` rows each
of length `C`, `production_rates` (the transpose of the matrix times the
rate-expression vector) has length `C`, and `IDs` has length `P`. -/
theorem compile_shapes :
    ((CompiledProcesses.mk [p1ex, p2ex]).components.map Component.ID
        = ["A", "B", "C"] ∧
      (CompiledProcesses.mk [p1ex, p2ex]).stoichiometry
        = [[-1, 1, 0], [0, -1, 2]]) ∧
    ∀ ps : List ProcessObj,
      (CompiledProcesses.mk ps).IDs.length = ps.length ∧
      (CompiledProcesses.mk ps).stoichiometry.length = ps.length ∧
      (CompiledProcesses.mk ps).stoichiometry.map List.length
        = List.replicate ps.length (CompiledProcesses.mk ps).components.length ∧
      (CompiledProcesses.mk ps).production_rates.length
        = (CompiledProcesses.mk ps).components.length := by
  constructor
  · exact ⟨by decide, by decide⟩
  · intro ps
    refine ⟨by simp [CompiledProcesses.mk], by simp [CompiledProcesses.mk], ?_, ?_⟩
    · simp only [CompiledProcesses.mk, List.map_map]
      refine List.eq_replicate_iff.2 ⟨by simp, ?_⟩
      intro b hb
      simp only [List.mem_map, Function.comp] at hb
      obtain ⟨p, _, rfl⟩ := hb
      exact compileRow_length _ p
    · cases ps with
      | nil => rfl
      | cons p rest =>
        simp only [CompiledProcesses.mk, transposeMat, List.map_cons,
          List.headD_cons, List.length_map, List.length_range, compileRow_length]

lemma new_hit {s : CacheState} {ps : List ObjId} {t : ObjId}
    (h : alookup s.cache ps = some t) :
    CompiledProcesses.new s ps = (s, t) := by
  unfold CompiledProcesses.new
  rw [h]

lemma new_miss {s : CacheState} {ps : List ObjId}
    (h : alookup s.cache ps = none) :
    CompiledProcesses.new s ps
      = ({ cache := s.cache ++ [(ps, s.next)], next := s.next + 1 }, s.next) := by
  unfold CompiledProcesses.new
  rw [h]

/-- Claim C2: on a well-formed cache state, constructing `CompiledProcesses`
from the same ordered member tuple twice returns the identical compiled object
(and leaves the cache unchanged on the hit), while constructing from any
different (reordered or modified) tuple returns a distinct object. -/
theorem cache_identity (s : CacheState) (ps qs : List ObjId) (hWF : s.WF) :
    CompiledProcesses.new (CompiledProcesses.new s ps).1 ps
      = CompiledProcesses.new s ps ∧
    (qs ≠ ps →
      (CompiledProcesses.new (CompiledProcesses.new s ps).1 qs).2
        ≠ (CompiledProcesses.new s ps).2) := by
  obtain ⟨hlt, hnodup⟩ := hWF
  cases h1 : alookup s.cache ps with
  | some t =>
    rw [new_hit h1]
    constructor
    · exact new_hit h1
    · intro hne
      cases h2 : alookup s.cache qs with
      | some t2 =>
        rw [new_hit h2]
        intro hc
        have m1 := mem_of_alookup h1
        have m2 := mem_of_alookup h2
        have heq := List.inj_on_of_nodup_map hnodup m2 m1 hc
        exact hne (congrArg Prod.fst heq)
      | none =>
        rw [new_miss h2]
        intro hc
        have hlt2 : t < s.next := hlt _ (mem_of_alookup h1)
        have hc2 : s.next = t := hc
        exact absurd hc2.symm (Nat.ne_of_lt hlt2)
  | none =>
    rw [new_miss h1]
    have h1b : alookup (s.cache ++ [(ps, s.next)]) ps = some s.next := by
      rw [alookup_append, h1]
      simp [alookup]
    constructor
    · exact new_hit h1b
    · intro hne
      have hswap : ¬ ps = qs := fun hc => hne hc.symm
      have hq : alookup (s.cache ++ [(ps, s.next)]) qs = alookup s.cache qs := by
        rw [alookup_append]
        cases hqq : alookup s.cache qs with
        | some w => rfl
        | none => simp [alookup, hswap]
      cases h2 : alookup s.cache qs with
      | some t2 =>
        rw [new_hit (s := { cache := s.cache ++ [(ps, s.next)], next := s.next + 1 })
          (hq.trans h2)]
        have := hlt _ (mem_of_alookup h2)
        exact Nat.ne_of_lt this
      | none =>
        rw [new_miss (s := { cache := s.cache ++ [(ps, s.next)], next := s.next + 1 })
          (hq.trans h2)]
        exact Nat.succ_ne_self s.next

/-- Witness for C2 at the empty cache: compiling the member tuple with
identities `[10, 11]` twice yields the identical object and unchanged cache;
compiling the reordered tuple `[11, 10]` yields a distinct object. -/
theorem cache_identity_witness :
    (CompiledProcesses.new
        (CompiledProcesses.new ⟨[], 0⟩ [10, 11]).1 [10, 11]
      = CompiledProcesses.new ⟨[], 0⟩ [10, 11]) ∧
    ((CompiledProcesses.new
        (CompiledProcesses.new ⟨[], 0⟩ [10, 11]).1 [11, 10]).2
      ≠ (CompiledProcesses.new ⟨[], 0⟩ [10, 11]).2) := by
  have h := cache_identity ⟨[], 0⟩ [10, 11] [11, 10] ⟨by decide, by decide⟩
  exact ⟨h.1, h.2 (by decide)⟩

/-- Claim C3 (code bug): for every Process whose stored stoichiometry is the
numeric (numpy) vector, `check_conservation` never reaches the residual
computation: `get_conversion_factors` reads `self._conservation_for`, an
attribute the constructor never writes (it stores `_conserved_for`), so the
call raises `AttributeError` instead of checking conservation. -/
theorem check_conservation_attribute_error (p : ProcessObj)
    (h : p._stoichiometry.isNumeric = true) :
    check_conservation p (1 / 100000000)
      = .error (.attributeError ("_conservation_for")) := by
  have hg : get_conversion_factors p
      = .error (.attributeError ("_conservation_for")) := rfl
  unfold check_conservation
  rw [if_pos h, hg]

/-- Witness for C3: the numeric example process hits the misspelled-attribute
error at the default tolerance. -/
theorem check_conservation_attribute_error_witness :
    p1ex._stoichiometry.isNumeric = true ∧
    check_conservation p1ex (1 / 100000000)
      = .error (.attributeError ("_conservation_for")) :=
  ⟨by decide, check_conservation_attribute_error p1ex (by decide)⟩

/-- Claim C4: every `append`, `extend` or item assignment on a compiled
collection raises the read-only error, and the instance state after the
rejected call is unchanged — no partial mutation is visible. -/
theorem compiled_read_only (cp : CompiledData) (p : ProcessObj) (ID : String)
    (arg : ProcsDict ⊕ List ProcessObj) :
    CompiledProcesses.append cp p
      = (cp, some (.typeError ("CompiledProcesses object is read-only"))) ∧
    CompiledProcesses.extend cp arg
      = (cp, some (.typeError ("CompiledProcesses object is read-only"))) ∧
    CompiledProcesses.setitem cp ID p
      = (cp, some (.typeError ("CompiledProcesses object is read-only"))) :=
  ⟨rfl, rfl, rfl⟩

lemma alookup_compiled_index (ps : List ProcessObj) (ID : String) :
    alookup (CompiledProcesses.mk ps).index ID
      = if ID ∈ (CompiledProcesses.mk ps).IDs
        then some ((CompiledProcesses.mk ps).IDs.indexOf ID) else none := by
  simp only [CompiledProcesses.mk]
  exact alookup_zip_range

/-- Claim C5: `index` returns the integer position of every member ID and
raises the distinguishable `UndefinedProcess` error carrying the offending ID
on a miss; `indices` does the same for iterables of IDs, raising
`UndefinedProcess` with the first offending ID. -/
theorem undefined_process_lookup (ps : List ProcessObj) (ID : String) :
    (ID ∈ (CompiledProcesses.mk ps).IDs →
      CompiledProcesses.index (CompiledProcesses.mk ps) ID
        = .ok ((CompiledProcesses.mk ps).IDs.indexOf ID)) ∧
    (ID ∉ (CompiledProcesses.mk ps).IDs →
      CompiledProcesses.index (CompiledProcesses.mk ps) ID
        = .error (.undefinedProcess ID)) ∧
    (∀ l : List String, (∀ i ∈ l, i ∈ (CompiledProcesses.mk ps).IDs) →
      CompiledProcesses.indices (CompiledProcesses.mk ps) l
        = .ok (l.map (fun i => (CompiledProcesses.mk ps).IDs.indexOf i))) ∧
    (∀ pre : List String, ∀ i : String, ∀ post : List String,
      (∀ j ∈ pre, j ∈ (CompiledProcesses.mk ps).IDs) →
      i ∉ (CompiledProcesses.mk ps).IDs →
      CompiledProcesses.indices (CompiledProcesses.mk ps) (pre ++ i :: post)
        = .error (.undefinedProcess i)) := by
  refine ⟨?_, ?_, ?_, ?_⟩
  · intro h
    unfold CompiledProcesses.index
    rw [alookup_compiled_index, if_pos h]
  · intro h
    unfold CompiledProcesses.index
    rw [alookup_compiled_index, if_neg h]
  · intro l
    induction l with
    | nil => intro _; rfl
    | cons a t ih =>
      intro hl
      have ha := hl a (List.mem_cons_self a t)
      unfold CompiledProcesses.indices
      rw [alookup_compiled_index, if_pos ha,
        ih (fun j hj => hl j (List.mem_cons_of_mem a hj))]
      rfl
  · intro pre i post
    induction pre with
    | nil =>
      intro _ hi
      simp only [List.nil_append]
      unfold CompiledProcesses.indices
      rw [alookup_compiled_index, if_neg hi]
    | cons a t ih =>
      intro hpre hi
      have ha := hpre a (List.mem_cons_self a t)
      simp only [List.cons_append]
      unfold CompiledProcesses.indices
      rw [alookup_compiled_index, if_pos ha,
        ih (fun j hj => hpre j (List.mem_cons_of_mem a hj)) hi]
      rfl

/-- Witness for C5 on the two-process example: hit and miss of `index`, and
hit and miss of `indices`. -/
theorem undefined_process_lookup_witness :
    CompiledProcesses.index (CompiledProcesses.mk [p1ex, p2ex]) "p2"
      = .ok ((CompiledProcesses.mk [p1ex, p2ex]).IDs.indexOf "p2") ∧
    CompiledProcesses.index (CompiledProcesses.mk [p1ex, p2ex]) "p9"
      = .error (.undefinedProcess "p9") ∧
    CompiledProcesses.indices (CompiledProcesses.mk [p1ex, p2ex]) ["p2", "p1"]
      = .ok (["p2", "p1"].map
          (fun i => (CompiledProcesses.mk [p1ex, p2ex]).IDs.indexOf i)) ∧
    CompiledProcesses.indices (CompiledProcesses.mk [p1ex, p2ex])
        (["p1"] ++ "p9" :: [])
      = .error (.undefinedProcess "p9") := by
  have h := undefined_process_lookup [p1ex, p2ex] "p2"
  have h9 := undefined_process_lookup [p1ex, p2ex] "p9"
  exact ⟨h.1 (by decide), h9.2.1 (by decide), h.2.2.1 ["p2", "p1"] (by decide),
    h.2.2.2 ["p1"] "p9" [] (by decide) (by decide)⟩

lemma coeffs_mapCoeffs (f : ℚ → ℚ) (v : StoichVec) :
    (v.mapCoeffs f).coeffs = v.coeffs.map f := by
  cases v <;> rfl

lemma coeffAt_lt_length {v : StoichVec} {idx : Nat} (h : coeffAt v idx ≠ 0) :
    idx < v.coeffs.length := by
  by_contra hc
  push_neg at hc
  apply h
  unfold coeffAt
  simp [List.getD_eq_getElem?_getD, List.getElem?_eq_none hc]

lemma coeffAt_mapCoeffs (f : ℚ → ℚ) (v : StoichVec) (idx : Nat)
    (h : idx < v.coeffs.length) :
    coeffAt (v.mapCoeffs f) idx = f (coeffAt v idx) := by
  unfold coeffAt
  rw [coeffs_mapCoeffs, List.getD_eq_getElem?_getD, List.getD_eq_getElem?_getD,
    List.getElem?_map, List.getElem?_eq_getElem h]
  rfl

lemma coeffAt_out_of_range {v : StoichVec} {j : Nat}
    (h : v.coeffs.length ≤ j) : coeffAt v j = 0 := by
  unfold coeffAt
  simp [List.getD_eq_getElem?_getD, List.getElem?_eq_none h]

lemma setRef_stoich (p : ProcessObj) (ref : String) (href : ¬ ref = "") :
    (Process.setRefComponent p ref)._stoichiometry
      = p._stoichiometry.mapCoeffs
          (fun v => v /
            abs (coeffAt p._stoichiometry (indexOfID p._components ref))) := by
  unfold Process.setRefComponent
  rw [if_neg href]

lemma setRef_rate (p : ProcessObj) (ref : String) (href : ¬ ref = "") :
    (Process.setRefComponent p ref)._rate_equation
      = p._rate_equation *
        coeffAt (p._stoichiometry.mapCoeffs
            (fun v => v /
              abs (coeffAt p._stoichiometry (indexOfID p._components ref))))
          (indexOfID p._components ref) := by
  unfold Process.setRefComponent
  rw [if_neg href]

/-- Example process for the C6 counterexample: coefficient 2 at the new
reference component `A`, rate expression of value 5. -/
def pC6 : ProcessObj :=
  { _ID := "q", _components := [cmpA, cmpB], _ref_component := "B",
    _conserved_for := [], _parameters := [],
    _stoichiometry := .arr [2, -1], _rate_equation := 5 }

/-- Counterexample to C6 as stated: reassigning `ref_component` to `A`
(original coefficient 2, rate value 5) does not preserve the
stoichiometry-weighted rate of component `A` — the code multiplies the rate
by the already-normalized coefficient `2 / |2| = 1` rather than by the signed
original factor, so the weighted rate drops from 10 to 5. -/
theorem ref_component_rate_not_preserved :
    ¬ (coeffAt (Process.setRefComponent pC6 "A")._stoichiometry 0 *
         (Process.setRefComponent pC6 "A")._rate_equation
       = coeffAt pC6._stoichiometry 0 * pC6._rate_equation) := by
  have h1 : coeffAt (Process.setRefComponent pC6 "A")._stoichiometry 0
      = 2 / |(2 : ℚ)| := rfl
  have h2 : (Process.setRefComponent pC6 "A")._rate_equation
      = 5 * (2 / |(2 : ℚ)|) := rfl
  have h3 : coeffAt pC6._stoichiometry 0 = 2 := rfl
  have h4 : pC6._rate_equation = 5 := rfl
  rw [h1, h2, h3, h4, abs_of_pos (by norm_num : (0 : ℚ) < 2)]
  norm_num

/-- Claim C6 as amended: for a nonzero coefficient `a` at the new reference
component, the setter divides every coefficient by `|a|` — so the new
reference coefficient gets absolute value 1 — but multiplies the rate
expression by the sign `a / |a|` of the already-normalized coefficient, not
by the signed original factor; hence every component's stoichiometry-weighted
rate is scaled by `1 / a` rather than preserved. -/
theorem ref_component_renormalization (p : ProcessObj) (ref : String) (a : ℚ)
    (href : ref ≠ "")
    (haDef : a = coeffAt p._stoichiometry (indexOfID p._components ref))
    (ha : a ≠ 0) :
    (Process.setRefComponent p ref)._stoichiometry.coeffs
        = p._stoichiometry.coeffs.map (fun v => v / |a|) ∧
    |coeffAt (Process.setRefComponent p ref)._stoichiometry
        (indexOfID p._components ref)| = 1 ∧
    (Process.setRefComponent p ref)._rate_equation
        = p._rate_equation * (a / |a|) ∧
    ∀ j : Nat,
      coeffAt (Process.setRefComponent p ref)._stoichiometry j *
          (Process.setRefComponent p ref)._rate_equation
        = coeffAt p._stoichiometry j * p._rate_equation / a := by
  have hlen : indexOfID p._components ref < p._stoichiometry.coeffs.length := by
    rw [haDef] at ha
    exact coeffAt_lt_length ha
  have habs : |a| ≠ 0 := abs_ne_zero.2 ha
  refine ⟨?_, ?_, ?_, ?_⟩
  · rw [setRef_stoich p ref href, coeffs_mapCoeffs, ← haDef]
  · rw [setRef_stoich p ref href, coeffAt_mapCoeffs _ _ _ hlen, ← haDef,
      abs_div, abs_abs, div_self habs]
  · rw [setRef_rate p ref href, coeffAt_mapCoeffs _ _ _ hlen, ← haDef]
  · intro j
    rw [setRef_stoich p ref href, setRef_rate p ref href,
      coeffAt_mapCoeffs _ _ _ hlen, ← haDef]
    by_cases hj : j < p._stoichiometry.coeffs.length
    · rw [coeffAt_mapCoeffs _ _ _ hj]
      rcases abs_cases a with ⟨hcase, _⟩ | ⟨hcase, _⟩ <;> rw [hcase] <;>
        field_simp
    · have hj2 : p._stoichiometry.coeffs.length ≤ j := le_of_not_lt hj
      have hz2 : coeffAt (p._stoichiometry.mapCoeffs (fun v => v / |a|)) j
          = 0 := by
        apply coeffAt_out_of_range
        rw [coeffs_mapCoeffs, List.length_map]
        exact hj2
      rw [coeffAt_out_of_range hj2, hz2]
      simp

/-- Witness for the amended C6: the example process, reference `A`, original
coefficient 2; the weighted-rate conjunct instantiated at component
position 0. -/
theorem ref_component_renormalization_witness :
    (Process.setRefComponent pC6 "A")._stoichiometry.coeffs
        = pC6._stoichiometry.coeffs.map (fun v => v / |(2 : ℚ)|) ∧
    |coeffAt (Process.setRefComponent pC6 "A")._stoichiometry
        (indexOfID pC6._components "A")| = 1 ∧
    (Process.setRefComponent pC6 "A")._rate_equation
        = pC6._rate_equation * ((2 : ℚ) / |(2 : ℚ)|) ∧
    coeffAt (Process.setRefComponent pC6 "A")._stoichiometry 0 *
        (Process.setRefComponent pC6 "A")._rate_equation
      = coeffAt pC6._stoichiometry 0 * pC6._rate_equation / 2 := by
  have h := ref_component_renormalization pC6 "A" 2 (by decide) (by decide)
    (by decide)
  exact ⟨h.1, h.2.1, h.2.2.1, h.2.2.2 0⟩

lemma mapM_except_ok (d : ProcsDict) (IDs : List String)
    (h : ∀ i ∈ IDs, (alookup d i).isSome = true) :
    ∃ procs, (IDs.mapM (fun i =>
        match alookup d i with
        | some p => Except.ok p
        | none => Except.error (PyError.attributeError i)))
      = (Except.ok procs : Except PyError (List ProcessObj)) := by
  induction IDs with
  | nil => exact ⟨[], rfl⟩
  | cons a t ih =>
    have ha := h a (List.mem_cons_self a t)
    cases hcase : alookup d a with
    | none => rw [hcase] at ha; simp at ha
    | some p =>
      obtain ⟨procs, hp⟩ := ih (fun i hi => h i (List.mem_cons_of_mem a hi))
      refine ⟨p :: procs, ?_⟩
      rw [List.mapM_cons]
      simp only [hcase, hp]
      rfl

lemma mapM_option_ok (d : ProcsDict) (IDs : List String)
    (h : ∀ i ∈ IDs, (alookup d i).isSome = true) :
    ∃ procs, IDs.mapM (alookup d) = some procs := by
  induction IDs with
  | nil => exact ⟨[], rfl⟩
  | cons a t ih =>
    have ha := h a (List.mem_cons_self a t)
    cases hcase : alookup d a with
    | none => rw [hcase] at ha; simp at ha
    | some p =>
      obtain ⟨procs, hp⟩ := ih (fun i hi => h i (List.mem_cons_of_mem a hi))
      refine ⟨p :: procs, ?_⟩
      rw [List.mapM_cons]
      simp only [hcase, hp]
      rfl

lemma alookup_procdict_isSome (ps : List ProcessObj) (i : String)
    (h : i ∈ ps.map (fun p => p._ID)) :
    (alookup (ps.map (fun p => (p._ID, p))) i).isSome = true := by
  induction ps with
  | nil => simp at h
  | cons p t ih =>
    by_cases hp : p._ID = i
    · simp [alookup, hp]
    · have h2 : i ∈ t.map (fun q => q._ID) := by
        rcases List.mem_cons.1 h with hc | hc
        · exact absurd hc.symm hp
        · exact hc
      simp [alookup, hp, ih h2]

lemma getitemList_ok (dd : ProcsDict) (IDs : List String)
    (procs : List ProcessObj) (hp : IDs.mapM (alookup dd) = some procs) :
    Processes.getitemList dd IDs = .ok procs := by
  unfold Processes.getitemList
  rw [hp]

/-- Claim C7 (code bug): `subgroup` never returns the restricted collection.
`Processes.subgroup` calls the single-reaction constructor `Process` (not
`Processes`) on the fetched list, raising `TypeError`; and
`CompiledProcesses.subgroup` calls `new.compile()` on a mutable `Processes`,
which defines `mycompile` but no `compile`, raising `AttributeError` — so the
restricted compile step never runs either. -/
theorem subgroup_broken (d : ProcsDict) (IDs : List String)
    (h : ∀ i ∈ IDs, (alookup d i).isSome = true)
    (ps : List ProcessObj) (IDs2 : List String)
    (h2 : ∀ i ∈ IDs2, i ∈ (CompiledProcesses.mk ps).IDs) :
    Processes.subgroup d IDs
      = .error (.typeError
          ("Process.__init__ missing required positional arguments: reaction, ref_component")) ∧
    CompiledProcesses.subgroup (CompiledProcesses.mk ps) IDs2
      = .error (.attributeError ("compile")) := by
  constructor
  · obtain ⟨procs, hp⟩ := mapM_except_ok d IDs h
    unfold Processes.subgroup
    rw [hp]
    rfl
  · have h3 : ∀ i ∈ IDs2,
        (alookup ((CompiledProcesses.mk ps).tuple.map (fun p => (p._ID, p)))
          i).isSome = true := by
      intro i hi
      exact alookup_procdict_isSome ps i (h2 i hi)
    obtain ⟨procs, hp⟩ := mapM_option_ok _ IDs2 h3
    unfold CompiledProcesses.subgroup
    rw [getitemList_ok _ _ _ hp]
    rfl

/-- Witness for C7: both subgroup paths fail on the two-process example even
though every requested ID is a member. -/
theorem subgroup_broken_witness :
    Processes.subgroup (Processes.new [p1ex, p2ex]) ["p1"]
      = .error (.typeError
          ("Process.__init__ missing required positional arguments: reaction, ref_component")) ∧
    CompiledProcesses.subgroup (CompiledProcesses.mk [p1ex, p2ex]) ["p2"]
      = .error (.attributeError ("compile")) :=
  subgroup_broken (Processes.new [p1ex, p2ex]) ["p1"] (by decide)
    [p1ex, p2ex] ["p2"] (by decide)

lemma newFromIterAux_procs (procs : List ProcessObj) :
    ∀ (acc : List (String × PyVal)) (tail : List PyVal),
      ∃ acc2, Processes.newFromIterAux acc (procs.map PyVal.proc ++ tail)
        = Processes.newFromIterAux acc2 tail := by
  induction procs with
  | nil => intro acc tail; exact ⟨acc, rfl⟩
  | cons p t ih =>
    intro acc tail
    rw [List.map_cons, List.cons_append]
    exact ih (dictSet acc p._ID (PyVal.proc p)) tail

/-- Claim C8 (code bug): `CompiledProcesses.copy` always raises.
`Processes(self)` iterates every `__dict__` value of the compiled instance —
the member processes, then the `_compile` artifacts — and `Processes.__new__`
reads `.ID` off each; the first artifact (the member tuple stored under the
key `tuple`) has no `ID` attribute, so the copy raises `AttributeError`
before `mycompile` ever runs.  The theorem holds for every compiled
collection, including the empty one. -/
theorem compiled_copy_raises (ps : List ProcessObj) :
    CompiledProcesses.copy ps = .error (.attributeError ("ID")) := by
  unfold CompiledProcesses.copy
  have hsnd : (compiledDict ps).map Prod.snd
      = ps.map PyVal.proc ++
        [PyVal.procTuple (CompiledProcesses.mk ps).tuple,
         PyVal.natVal (CompiledProcesses.mk ps).size,
         PyVal.strList (CompiledProcesses.mk ps).IDs,
         PyVal.indexDict (CompiledProcesses.mk ps).index,
         PyVal.comps (CompiledProcesses.mk ps).components,
         PyVal.paramTable (CompiledProcesses.mk ps).parameters,
         PyVal.matrix (CompiledProcesses.mk ps).stoichiometry,
         PyVal.exprTuple (CompiledProcesses.mk ps).rate_equations,
         PyVal.exprTuple (CompiledProcesses.mk ps).production_rates] := by
    simp [compiledDict]
  rw [hsnd]
  obtain ⟨acc2, hacc⟩ := newFromIterAux_procs ps []
    [PyVal.procTuple (CompiledProcesses.mk ps).tuple,
     PyVal.natVal (CompiledProcesses.mk ps).size,
     PyVal.strList (CompiledProcesses.mk ps).IDs,
     PyVal.indexDict (CompiledProcesses.mk ps).index,
     PyVal.comps (CompiledProcesses.mk ps).components,
     PyVal.paramTable (CompiledProcesses.mk ps).parameters,
     PyVal.matrix (CompiledProcesses.mk ps).stoichiometry,
     PyVal.exprTuple (CompiledProcesses.mk ps).rate_equations,
     PyVal.exprTuple (CompiledProcesses.mk ps).production_rates]
  rw [hacc]
  rfl

lemma extendLoop_dup_isSome (procs : List ProcessObj) :
    ∀ (d : ProcsDict) (p : ProcessObj), p ∈ procs →
      d.any (fun kv => kv.1 = p._ID) = true →
      (Processes.extendLoop d procs).2.isSome = true := by
  induction procs with
  | nil => intro d p hp _; simp at hp
  | cons q rest ih =>
    intro d p hp hd
    unfold Processes.extendLoop
    cases happ : Processes.append d q with
    | error e => simp
    | ok d2 =>
      rcases List.mem_cons.1 hp with rfl | hp2
      · unfold Processes.append at happ
        rw [if_pos hd] at happ
        exact absurd happ (by simp)
      · have hd2 : d2.any (fun kv => kv.1 = p._ID) = true := by
          unfold Processes.append at happ
          by_cases hq : d.any (fun kv => kv.1 = q._ID) = true
          · rw [if_pos hq] at happ
            exact absurd happ (by simp)
          · rw [if_neg hq] at happ
            have hd2eq : d ++ [(q._ID, q)] = d2 := by
              simpa using happ
            rw [← hd2eq, List.any_append, hd, Bool.true_or]
        exact ih d2 p hp2 hd2

/-- Claim C10: `extend` with another `Processes` never raises and silently
replaces an entry whose ID already exists (dict update), whereas `extend`
with a plain iterable routes through `append` and raises on a duplicate ID. -/
theorem extend_duplicate_semantics (d other : ProcsDict) :
    ((Processes.extend d (.inl other)).2 = none) ∧
    (∀ (k : String) (q : ProcessObj), (other.map Prod.fst).Nodup →
        alookup other k = some q →
        alookup (Processes.extend d (.inl other)).1 k = some q) ∧
    (∀ (procs : List ProcessObj) (p : ProcessObj), p ∈ procs →
        d.any (fun kv => kv.1 = p._ID) = true →
        (Processes.extend d (.inr procs)).2.isSome = true) := by
  refine ⟨rfl, ?_, ?_⟩
  · intro k q hnodup hk
    exact alookup_dictUpdate_of_mem other d k q hnodup hk
  · intro procs p hp hd
    exact extendLoop_dup_isSome procs d p hp hd

/-- A structurally different process carrying the same ID `p1`, used by the
C10 witness. -/
def p1v2 : ProcessObj := { p1ex with _rate_equation := 11 }

/-- Witness for C10: extending `[p1, p2]` with a `Processes` holding a fresh
process under the existing ID `p1` silently replaces it, while extending with
the plain list `[p1v2]` raises. -/
theorem extend_duplicate_semantics_witness :
    ((Processes.extend (Processes.new [p1ex, p2ex])
        (.inl [("p1", p1v2)])).2 = none) ∧
    alookup (Processes.extend (Processes.new [p1ex, p2ex])
        (.inl [("p1", p1v2)])).1 "p1" = some p1v2 ∧
    (Processes.extend (Processes.new [p1ex, p2ex])
        (.inr [p1v2])).2.isSome = true := by
  have h := extend_duplicate_semantics (Processes.new [p1ex, p2ex])
    [("p1", p1v2)]
  exact ⟨h.1, h.2.1 "p1" p1v2 (by decide) (by decide),
    h.2.2 [p1v2] p1v2 (by decide) (by decide)⟩

/-- Example compiled-PM2 state for C9: one stoichiometric parameter stored
with value 3, the `growth_pho` row giving `Th_Q_N_min = 0.1 * 1.001`. -/
def stEx : PM2State :=
  { params := [("Y_CH_PHO", 3)],
    kineticParams := [("Q_N_min", 82 / 1000), ("K_N", 1 / 10)],
    stoichioLambdified := true,
    stoichTable := [(("growth_pho", "X_N_ALG"), -(1 / 10)),
                    (("growth_pho", "X_P_ALG"), -(4 / 1000))] }

/-- The C9 call: a valid stoichiometric parameter together with a `Q_N_min`
below its theoretical minimum. -/
def pm2Call : List (String × ℚ) := [("Y_CH_PHO", 4), ("Q_N_min", 1 / 20)]

/-- The second C9 call: a stoichiometric parameter together with a `Q_P_min`
below its theoretical minimum (`Q_N_min` absent, so its check passes). -/
def pm2CallP : List (String × ℚ) := [("Y_CH_PHO", 5), ("Q_P_min", 1 / 1000)]

lemma alookup_params_filter_unchanged (st : PM2State)
    (parameters : List (String × ℚ)) (k : String)
    (hk : PM2.stoichioParams.contains k = false) :
    alookup (dictUpdate st.params
        (parameters.filter (fun kv => PM2.stoichioParams.contains kv.1))) k
      = alookup st.params k := by
  apply alookup_dictUpdate_not_mem
  intro hmem
  obtain ⟨kv, hkv, hfst⟩ := List.mem_map.1 hmem
  have hkeep := List.of_mem_filter hkv
  simp only at hkeep
  rw [hfst, hk] at hkeep
  exact absurd hkeep (by simp)

lemma set_parameters_to_checkQP (st : PM2State)
    (parameters : List (String × ℚ))
    (h : ∀ v : ℚ, alookup parameters "Q_N_min" = some v →
      ¬ v < PM2.Th_Q_N_min st) :
    PM2.set_parameters st parameters
      = PM2.checkQP
          { params := dictUpdate st.params
              (parameters.filter (fun kv => PM2.stoichioParams.contains kv.1)),
            kineticParams := st.kineticParams,
            stoichioLambdified := false,
            stoichTable := st.stoichTable } parameters := by
  simp only [PM2.set_parameters]
  cases hqn : alookup parameters "Q_N_min" with
  | none => rfl
  | some v =>
    dsimp only
    rw [if_neg (show ¬ v < PM2.Th_Q_N_min
        { params := dictUpdate st.params
            (parameters.filter (fun kv => PM2.stoichioParams.contains kv.1)),
          kineticParams := st.kineticParams,
          stoichioLambdified := false,
          stoichTable := st.stoichTable } from h v hqn)]

lemma checkQP_violation (st1 : PM2State) (parameters : List (String × ℚ))
    (w : ℚ) (hw : alookup parameters "Q_P_min" = some w)
    (hltw : w < PM2.Th_Q_P_min st1) :
    PM2.checkQP st1 parameters
      = (st1, some (.valueError
          ("Value for Q_P_min must not be less than the theoretical minimum"))) := by
  simp only [PM2.checkQP]
  rw [hw]
  dsimp only
  rw [if_pos hltw]

/-- Counterexample to C9 as stated: in both the `Q_N_min` call and the
`Q_P_min` call, the stoichiometric parameter `Y_CH_PHO` passed alongside the
invalid value is stored (3 becomes 4, respectively 5) before the validation
raises, so a parameter passed in the same call does not remain unchanged. -/
theorem set_parameters_partial_mutation :
    ((PM2.set_parameters stEx pm2Call).2.isSome = true) ∧
    ¬ (alookup (PM2.set_parameters stEx pm2Call).1.params "Y_CH_PHO"
        = alookup stEx.params "Y_CH_PHO") ∧
    ((PM2.set_parameters stEx pm2CallP).2.isSome = true) ∧
    ¬ (alookup (PM2.set_parameters stEx pm2CallP).1.params "Y_CH_PHO"
        = alookup stEx.params "Y_CH_PHO") := by
  have habs : |(1 : ℚ) / 10| = 1 / 10 := abs_of_pos (by norm_num)
  have hlt : (1 : ℚ) / 20 < PM2.Th_Q_N_min
      { params := dictUpdate stEx.params
          (pm2Call.filter (fun kv => PM2.stoichioParams.contains kv.1)),
        kineticParams := stEx.kineticParams,
        stoichioLambdified := false,
        stoichTable := stEx.stoichTable } := by
    norm_num [PM2.Th_Q_N_min, stEx, alookup, habs]
  have hv : alookup pm2Call "Q_N_min" = some (1 / 20) := rfl
  have hrun : PM2.set_parameters stEx pm2Call
      = ({ params := dictUpdate stEx.params
             (pm2Call.filter (fun kv => PM2.stoichioParams.contains kv.1)),
           kineticParams := stEx.kineticParams,
           stoichioLambdified := false,
           stoichTable := stEx.stoichTable },
         some (.valueError
           ("Value for Q_N_min must not be less than the theoretical minimum"))) := by
    simp only [PM2.set_parameters]
    rw [hv]
    dsimp only
    rw [if_pos hlt]
  have habs4 : |(4 : ℚ) / 1000| = 4 / 1000 := abs_of_pos (by norm_num)
  have habs5 : |(1 : ℚ) / 250| = 1 / 250 := abs_of_pos (by norm_num)
  have hneNP : ("X_N_ALG" : String) ≠ "X_P_ALG" := by decide
  have hnoQN : ∀ v : ℚ, alookup pm2CallP "Q_N_min" = some v →
      ¬ v < PM2.Th_Q_N_min stEx := by
    intro v hvv
    simp [pm2CallP, alookup] at hvv
  have hltP : (1 : ℚ) / 1000 < PM2.Th_Q_P_min
      { params := dictUpdate stEx.params
          (pm2CallP.filter (fun kv => PM2.stoichioParams.contains kv.1)),
        kineticParams := stEx.kineticParams,
        stoichioLambdified := false,
        stoichTable := stEx.stoichTable } := by
    norm_num [PM2.Th_Q_P_min, stEx, alookup, habs4, habs5, hneNP]
  have hrunP : PM2.set_parameters stEx pm2CallP
      = ({ params := dictUpdate stEx.params
             (pm2CallP.filter (fun kv => PM2.stoichioParams.contains kv.1)),
           kineticParams := stEx.kineticParams,
           stoichioLambdified := false,
           stoichTable := stEx.stoichTable },
         some (.valueError
           ("Value for Q_P_min must not be less than the theoretical minimum"))) := by
    rw [set_parameters_to_checkQP stEx pm2CallP hnoQN,
      checkQP_violation _ pm2CallP (1 / 1000) rfl hltP]
  rw [hrun, hrunP]
  have hold : alookup stEx.params "Y_CH_PHO" = some 3 := rfl
  refine ⟨rfl, ?_, rfl, ?_⟩
  · have hnew : alookup
        (dictUpdate stEx.params
          (pm2Call.filter (fun kv => PM2.stoichioParams.contains kv.1)))
        "Y_CH_PHO" = some 4 := rfl
    intro hc
    rw [hnew, hold] at hc
    exact absurd (Option.some.inj hc) (by norm_num)
  · have hnewP : alookup
        (dictUpdate stEx.params
          (pm2CallP.filter (fun kv => PM2.stoichioParams.contains kv.1)))
        "Y_CH_PHO" = some 5 := rfl
    intro hc
    rw [hnewP, hold] at hc
    exact absurd (Option.some.inj hc) (by norm_num)

/-- Claim C9 as amended: a `Q_N_min` (respectively `Q_P_min`) below the
theoretical minimum derived from the compiled stoichiometry makes
`set_parameters` raise before the invalid value (or any kinetic parameter of
the call) is stored — the kinetic table and the stored `Q_N_min` /
`Q_P_min` are unchanged — but the stoichiometric parameters passed in the
same call are already stored (and the cached lambdified stoichiometry
cleared) when the error is raised.  A `Q_P_min` violation surfaces once the
`Q_N_min` check passes; when `Q_N_min` violates too, the first part applies
and the `Q_N_min` error is raised instead. -/
theorem set_parameters_validation (st : PM2State)
    (parameters : List (String × ℚ)) :
    (∀ v : ℚ, alookup parameters "Q_N_min" = some v →
      v < PM2.Th_Q_N_min st →
      (PM2.set_parameters st parameters).2
        = some (.valueError
            ("Value for Q_N_min must not be less than the theoretical minimum")) ∧
      (PM2.set_parameters st parameters).1.kineticParams = st.kineticParams ∧
      (PM2.set_parameters st parameters).1.params
        = dictUpdate st.params
            (parameters.filter (fun kv => PM2.stoichioParams.contains kv.1)) ∧
      (PM2.set_parameters st parameters).1.stoichioLambdified = false ∧
      alookup (PM2.set_parameters st parameters).1.params "Q_N_min"
        = alookup st.params "Q_N_min") ∧
    (∀ w : ℚ, alookup parameters "Q_P_min" = some w →
      w < PM2.Th_Q_P_min st →
      (∀ v : ℚ, alookup parameters "Q_N_min" = some v →
        ¬ v < PM2.Th_Q_N_min st) →
      (PM2.set_parameters st parameters).2
        = some (.valueError
            ("Value for Q_P_min must not be less than the theoretical minimum")) ∧
      (PM2.set_parameters st parameters).1.kineticParams = st.kineticParams ∧
      (PM2.set_parameters st parameters).1.params
        = dictUpdate st.params
            (parameters.filter (fun kv => PM2.stoichioParams.contains kv.1)) ∧
      (PM2.set_parameters st parameters).1.stoichioLambdified = false ∧
      alookup (PM2.set_parameters st parameters).1.params "Q_P_min"
        = alookup st.params "Q_P_min") := by
  constructor
  · intro v hv hlt
    have hlt2 : v < PM2.Th_Q_N_min
        { params := dictUpdate st.params
            (parameters.filter (fun kv => PM2.stoichioParams.contains kv.1)),
          kineticParams := st.kineticParams,
          stoichioLambdified := false,
          stoichTable := st.stoichTable } := hlt
    have hrun : PM2.set_parameters st parameters
        = ({ params := dictUpdate st.params
               (parameters.filter (fun kv => PM2.stoichioParams.contains kv.1)),
             kineticParams := st.kineticParams,
             stoichioLambdified := false,
             stoichTable := st.stoichTable },
           some (.valueError
             ("Value for Q_N_min must not be less than the theoretical minimum"))) := by
      simp only [PM2.set_parameters]
      rw [hv]
      dsimp only
      rw [if_pos hlt2]
    rw [hrun]
    refine ⟨rfl, rfl, rfl, rfl, ?_⟩
    exact alookup_params_filter_unchanged st parameters "Q_N_min" (by decide)
  · intro w hw hltw hQN
    have hltw2 : w < PM2.Th_Q_P_min
        { params := dictUpdate st.params
            (parameters.filter (fun kv => PM2.stoichioParams.contains kv.1)),
          kineticParams := st.kineticParams,
          stoichioLambdified := false,
          stoichTable := st.stoichTable } := hltw
    rw [set_parameters_to_checkQP st parameters hQN,
      checkQP_violation _ parameters w hw hltw2]
    refine ⟨rfl, rfl, rfl, rfl, ?_⟩
    exact alookup_params_filter_unchanged st parameters "Q_P_min" (by decide)

/-- Witness for the amended C9: at the example state, the `Q_N_min` call and
the `Q_P_min` call each raise their error with the kinetic table (and the
stored quota minimum) untouched, while the stoichiometric update and the
lambdified-cache clearing have happened. -/
theorem set_parameters_validation_witness :
    ((PM2.set_parameters stEx pm2Call).2
      = some (.valueError
          ("Value for Q_N_min must not be less than the theoretical minimum")) ∧
    (PM2.set_parameters stEx pm2Call).1.kineticParams = stEx.kineticParams ∧
    (PM2.set_parameters stEx pm2Call).1.params
      = dictUpdate stEx.params
          (pm2Call.filter (fun kv => PM2.stoichioParams.contains kv.1)) ∧
    (PM2.set_parameters stEx pm2Call).1.stoichioLambdified = false ∧
    alookup (PM2.set_parameters stEx pm2Call).1.params "Q_N_min"
      = alookup stEx.params "Q_N_min") ∧
    ((PM2.set_parameters stEx pm2CallP).2
      = some (.valueError
          ("Value for Q_P_min must not be less than the theoretical minimum")) ∧
    (PM2.set_parameters stEx pm2CallP).1.kineticParams = stEx.kineticParams ∧
    (PM2.set_parameters stEx pm2CallP).1.params
      = dictUpdate stEx.params
          (pm2CallP.filter (fun kv => PM2.stoichioParams.contains kv.1)) ∧
    (PM2.set_parameters stEx pm2CallP).1.stoichioLambdified = false ∧
    alookup (PM2.set_parameters stEx pm2CallP).1.params "Q_P_min"
      = alookup stEx.params "Q_P_min") := by
  have habs : |(1 : ℚ) / 10| = 1 / 10 := abs_of_pos (by norm_num)
  have habs4 : |(4 : ℚ) / 1000| = 4 / 1000 := abs_of_pos (by norm_num)
  have habs5 : |(1 : ℚ) / 250| = 1 / 250 := abs_of_pos (by norm_num)
  have hneNP : ("X_N_ALG" : String) ≠ "X_P_ALG" := by decide
  have hN := (set_parameters_validation stEx pm2Call).1 (1 / 20) rfl
    (by norm_num [PM2.Th_Q_N_min, stEx, alookup, habs])
  have hP := (set_parameters_validation stEx pm2CallP).2 (1 / 1000) rfl
    (by norm_num [PM2.Th_Q_P_min, stEx, alookup, habs4, habs5, hneNP])
    (by intro v hvv; simp [pm2CallP, alookup] at hvv)
  exact ⟨hN, hP⟩

end QSDsan
